import Mathlib

/-!
Verification of the analysis-tool engine of the Github-codebase-QnA
repository (`multi_tools_agent.py`), as a shallow embedding in Lean 4.

Python strings are modelled as `String`/`List Char`, Python dicts as
insertion-ordered association lists, the filesystem as an inductive tree,
and the git log as a list of commit records (newest first, as produced by
`repo.iter_commits()`).  Regex matching for the fixed patterns of the
source is modelled character by character, including the backtracking
behaviour of `[:\s]*(.+)`.
-/

set_option maxRecDepth 8000

namespace GithubQnA

/-! ## Python-oriented primitives -/

/-- Truthiness of an optional Python string: `None` and `""` are falsy. -/
def pyTruthy : Option String → Bool
  | none => false
  | some s => s != ""

/-- Python `str.isspace` class used by the `\s` regex class:
space, tab, newline, carriage return, vertical tab, form feed. -/
def isPySpace (c : Char) : Bool :=
  c = ' ' || c = '\t' || c = '\n' || c = '\r' || c = '\x0b' || c = '\x0c'

/-- The character class `[:\s]` of the task-comment patterns. -/
def isSepChar (c : Char) : Bool := c = ':' || isPySpace c

/-- The regex word class `\w` (ASCII model): letters, digits, underscore. -/
def isWordChar (c : Char) : Bool := c.isAlphanum || c = '_'

/-- Python `str.strip()`: remove leading and trailing whitespace. -/
def pyStrip (s : String) : String :=
  ⟨((s.toList.dropWhile isPySpace).reverse.dropWhile isPySpace).reverse⟩

/-- Python `str.lower()` (ASCII model). -/
def lowerStr (s : String) : String := ⟨s.toList.map Char.toLower⟩

/-- Python `str.startswith(pre)`. -/
def strStarts (s pre : String) : Bool := pre.toList.isPrefixOf s.toList

/-- Python `str.endswith(post)`. -/
def strEnds (s post : String) : Bool := post.toList.isSuffixOf s.toList

/-- Python `s[:n]`. -/
def strTake (s : String) (n : Nat) : String := ⟨s.toList.take n⟩

/-- Splitting a character list at every newline (Python `split('\n')`):
the empty text yields one empty segment. -/
def splitLines : List Char → List (List Char)
  | [] => [[]]
  | c :: t =>
    let r := splitLines t
    if c = '\n' then [] :: r else (c :: r.headD []) :: r.tail

/-- Python `content.split('\n')`. -/
def splitLinesPy (content : String) : List String :=
  (splitLines content.toList).map (fun cs => ⟨cs⟩)

/-- Python `pat in s` on lists of characters: contiguous-substring test. -/
def listContains (pat : List Char) : List Char → Bool
  | [] => pat.isEmpty
  | c :: t => pat.isPrefixOf (c :: t) || listContains pat t

/-- Python `pat in s` on strings. -/
def strContains (pat s : String) : Bool := listContains pat.toList s.toList

/-- Python insertion-ordered dict update `d[k] = d.get(k, 0) + 1`. -/
def bumpAssoc (k : String) : List (String × Nat) → List (String × Nat)
  | [] => [(k, 1)]
  | (a, n) :: t => if a = k then (a, n + 1) :: t else (a, n) :: bumpAssoc k t

/-! ## Architecture Summarizer (`generate_architecture_summary`) -/

/-- Entry-point filenames recognized by the summarizer. -/
def entry_point_names : List String :=
  ["main.py", "app.py", "index.js", "server.js", "app.js"]

/-- Config filenames recognized by the summarizer. -/
def config_file_names : List String :=
  ["config.py", "settings.py", "config.json", ".env", "docker-compose.yml"]

/-- Database-file extensions recognized by the summarizer. -/
def database_exts : List String := [".db", ".sqlite", ".sql"]

/-- Static-asset extensions recognized by the summarizer. -/
def static_exts : List String := [".css", ".js", ".html", ".png", ".jpg", ".svg"]

/-- The six buckets of the architecture summary. -/
inductive ArchBucket
  | entryPoint | apiEndpoint | databaseFile | configFile | testFile | staticFile
deriving DecidableEq, Repr

/-- The `if/elif` classification chain of `generate_architecture_summary`,
as a function from a filename to the bucket the file is appended to
(`none`: the chain falls through and the file lands in no bucket). -/
def classifyFile (file : String) : Option ArchBucket :=
  if file ∈ entry_point_names then some .entryPoint
  else if strContains "api" (lowerStr file) || strContains "route" (lowerStr file) then
    some .apiEndpoint
  else if database_exts.any (fun e => strEnds file e) then some .databaseFile
  else if file ∈ config_file_names then some .configFile
  else if strContains "test" (lowerStr file) || strStarts file "test_" then some .testFile
  else if static_exts.any (fun e => strEnds file e) then some .staticFile
  else none

/-- Result shape of `generate_architecture_summary`. -/
structure ArchSummary where
  entry_points : List String
  api_endpoints : List String
  database_files : List String
  config_files : List String
  test_files : List String
  static_files : List String
deriving DecidableEq, Repr

/-- One loop iteration of `generate_architecture_summary`: the `if/elif`
chain appending the file's relative path `p` (the file's name is `n`). -/
def archAdd (s : ArchSummary) (p n : String) : ArchSummary :=
  if n ∈ entry_point_names then
    { s with entry_points := s.entry_points ++ [p] }
  else if strContains "api" (lowerStr n) || strContains "route" (lowerStr n) then
    { s with api_endpoints := s.api_endpoints ++ [p] }
  else if database_exts.any (fun e => strEnds n e) then
    { s with database_files := s.database_files ++ [p] }
  else if n ∈ config_file_names then
    { s with config_files := s.config_files ++ [p] }
  else if strContains "test" (lowerStr n) || strStarts n "test_" then
    { s with test_files := s.test_files ++ [p] }
  else if static_exts.any (fun e => strEnds n e) then
    { s with static_files := s.static_files ++ [p] }
  else s

/-- `generate_architecture_summary` over the walked file list, each file
given as (relative path, filename). -/
def generate_architecture_summary (files : List (String × String)) : ArchSummary :=
  files.foldl (fun s pn => archAdd s pn.1 pn.2) ⟨[], [], [], [], [], []⟩

/-- Projection of an `ArchSummary` onto one bucket's list. -/
def archBucket (s : ArchSummary) : ArchBucket → List String
  | .entryPoint => s.entry_points
  | .apiEndpoint => s.api_endpoints
  | .databaseFile => s.database_files
  | .configFile => s.config_files
  | .testFile => s.test_files
  | .staticFile => s.static_files

/-- The classification rules in the precedence order stated by the spec
(entry point, api/route, database, config, test, static). -/
def archRules : List ((String → Bool) × ArchBucket) :=
  [(fun f => f ∈ entry_point_names, .entryPoint),
   (fun f => strContains "api" (lowerStr f) || strContains "route" (lowerStr f), .apiEndpoint),
   (fun f => database_exts.any (fun e => strEnds f e), .databaseFile),
   (fun f => f ∈ config_file_names, .configFile),
   (fun f => strContains "test" (lowerStr f) || strStarts f "test_", .testFile),
   (fun f => static_exts.any (fun e => strEnds f e), .staticFile)]

/-- Spec-side classifier: the bucket of the first matching rule. -/
def classifyByRules (file : String) : Option ArchBucket :=
  (archRules.find? (fun r => r.1 file)).map (·.2)

/-! ## Intent Router (`agent_analyze`, keyword dispatch) -/

def dep_keywords : List String :=
  ["dependencies", "packages", "requirements", "npm", "pip"]

def metrics_keywords : List String :=
  ["metrics", "lines", "complexity", "size", "statistics"]

def security_keywords : List String :=
  ["security", "vulnerability", "safe", "secure"]

def git_keywords : List String :=
  ["git", "commit", "history", "changes", "author"]

def todo_keywords : List String :=
  ["todo", "fixme", "task", "hack", "note"]

def arch_keywords : List String :=
  ["architecture", "structure", "entry", "api", "endpoint"]

/-- The fixed default pair used when no keyword group matches. -/
def default_tools : List String := ["analyze_code_metrics", "analyze_dependencies"]

/-- The tool-selection logic of the `/api/agent/analyze` route: the
question is stripped and lower-cased, each keyword group appends its
tool name independently, and the default pair is used when nothing
matched. -/
def agent_tools_to_run (question : String) : List String :=
  let q := lowerStr (pyStrip question)
  let t0 : List String := []
  let t1 := if dep_keywords.any (fun w => strContains w q) then
    t0 ++ ["analyze_dependencies"] else t0
  let t2 := if metrics_keywords.any (fun w => strContains w q) then
    t1 ++ ["analyze_code_metrics"] else t1
  let t3 := if security_keywords.any (fun w => strContains w q) then
    t2 ++ ["find_security_issues"] else t2
  let t4 := if git_keywords.any (fun w => strContains w q) then
    t3 ++ ["analyze_git_history"] else t3
  let t5 := if todo_keywords.any (fun w => strContains w q) then
    t4 ++ ["find_todos_and_fixmes"] else t4
  let t6 := if arch_keywords.any (fun w => strContains w q) then
    t5 ++ ["generate_architecture_summary"] else t5
  if t6 = [] then default_tools else t6

/-- The six keyword groups with their tool names, in source order. -/
def keyword_groups : List (List String × String) :=
  [(dep_keywords, "analyze_dependencies"),
   (metrics_keywords, "analyze_code_metrics"),
   (security_keywords, "find_security_issues"),
   (git_keywords, "analyze_git_history"),
   (todo_keywords, "find_todos_and_fixmes"),
   (arch_keywords, "generate_architecture_summary")]

/-- Spec-side router core: the tools of all groups with at least one
keyword contained in the (already lower-cased) question. -/
def matchingTools (q : String) : List String :=
  keyword_groups.filterMap
    (fun g => if g.1.any (fun w => strContains w q) then some g.2 else none)

/-- Spec-side router: union of matching groups, default pair if none. -/
def routeSpec (question : String) : List String :=
  let sel := matchingTools (lowerStr (pyStrip question))
  if sel = [] then default_tools else sel

/-! ## Security Scanner (`find_security_issues`, result aggregation) -/

/-- One collected security match. -/
structure SecIssue where
  file : String
  line : Nat
  issue : String
  code : String
  severity : String
deriving DecidableEq, Repr

/-- Result shape of `find_security_issues`. -/
structure SecurityReport where
  total_issues : Nat
  issues : List SecIssue
  severity_breakdown : List (String × Nat)
deriving DecidableEq, Repr

/-- Keys of a Python `Counter` in first-occurrence order. -/
def counterKeys (l : List String) : List String :=
  l.foldl (fun ks s => if s ∈ ks then ks else ks ++ [s]) []

/-- Python `Counter(l)` as an insertion-ordered association list. -/
def pyCounter (l : List String) : List (String × Nat) :=
  (counterKeys l).map (fun s => (s, l.count s))

/-- The return-value construction of `find_security_issues`: total over
all matches, displayed list capped to the first 20 matches, severity
histogram over all matches. -/
def mkSecurityReport (security_issues : List SecIssue) : SecurityReport :=
  { total_issues := security_issues.length
    issues := security_issues.take 20
    severity_breakdown := pyCounter (security_issues.map (·.severity)) }

/-! ## Task-Comment Finder (`find_todos_and_fixmes`) -/

/-- Case-insensitive literal match of a marker: returns the characters
after the marker, or `none` if the marker is not there. -/
def matchMarkerCI : List Char → List Char → Option (List Char)
  | [], cs => some cs
  | _ :: _, [] => none
  | m :: ms, c :: cs => if c.toLower = m.toLower then matchMarkerCI ms cs else none

/-- Attempt of the pattern tail `\s*MARKER[:\s]*(.+)` right after a
line-comment token, with the regex engine's backtracking on the greedy
`[:\s]*` (it gives characters back so that `(.+)` can take at least
one).  Returns the captured group. -/
def matchAfterToken (marker : List Char) (cs : List Char) : Option (List Char) :=
  let rest := cs.dropWhile isPySpace
  match matchMarkerCI marker rest with
  | none => none
  | some after =>
    let m := (after.takeWhile isSepChar).length
    if m < after.length then some (after.drop m)
    else if 0 < m then some (after.drop (m - 1))
    else none

/-- The alternation `(?:#|//|/\*)` at the current position followed by
the rest of the pattern; at most one alternative's token can be present
(they differ in their first or second character). -/
def tryTokenAt (marker : List Char) : List Char → Option (List Char)
  | '#' :: rest => matchAfterToken marker rest
  | '/' :: '/' :: rest => matchAfterToken marker rest
  | '/' :: '*' :: rest => matchAfterToken marker rest
  | _ => none

/-- Scan of one line for `(?:#|//|/\*)\s*MARKER[:\s]*(.+)` (IGNORECASE):
the first position with a line-comment token at which the rest of the
pattern matches yields the captured group; on failure the engine
restarts one character further.  Because the greedy `(.+)` always
extends to the end of the line, a line has at most one match. -/
def scanMarker (marker : List Char) : List Char → Option (List Char)
  | [] => none
  | c :: rest =>
    match tryTokenAt marker (c :: rest) with
    | some g => some g
    | none => scanMarker marker rest

/-- One recorded task comment. -/
structure TaskEntry where
  file : String
  line : Nat
  content : String
  full_line : String
deriving DecidableEq, Repr

/-- The per-file, per-line collection loop of `find_todos_and_fixmes`
for one marker: every match is appended, with the file, the 1-based
line number, the stripped captured text and the stripped raw line. -/
def todosInFile (marker : String) (fname content : String) : List TaskEntry :=
  (splitLinesPy content).enum.filterMap
    (fun il =>
      match scanMarker marker.toList il.2.toList with
      | some g => some ⟨fname, il.1 + 1, pyStrip ⟨g⟩, pyStrip il.2⟩
      | none => none)

/-- Result shape of `find_todos_and_fixmes` (the four marker lists). -/
structure TaskResult where
  todos : List TaskEntry
  fixmes : List TaskEntry
  hacks : List TaskEntry
  notes : List TaskEntry
deriving DecidableEq, Repr

/-- Extensions scanned by the Task-Comment Finder. -/
def task_exts : List String :=
  [".py", ".js", ".ts", ".jsx", ".tsx", ".java", ".cpp", ".c", ".h"]

/-! ## Filesystem model and walk (`os.walk`) -/

/-- A directory tree: files carry their text content. -/
inductive FSEntry
  | file (name : String) (content : String)
  | dir (name : String) (children : List FSEntry)
deriving Repr

/-- A file reached by the walk: relative path, filename, content. -/
structure FileRec where
  path : String
  name : String
  content : String
deriving DecidableEq, Repr

mutual

/-- `os.walk` restricted to one entry: every file of every directory is
reached; directories are never pruned, whatever their name. -/
def walkEntry (pre : String) : FSEntry → List FileRec
  | .file n c => [⟨pre ++ n, n, c⟩]
  | .dir n ch => walkEntries (pre ++ n ++ "/") ch

/-- `os.walk` over a list of entries, in order. -/
def walkEntries (pre : String) : List FSEntry → List FileRec
  | [] => []
  | e :: es => walkEntry pre e ++ walkEntries pre es

end

/-- `find_todos_and_fixmes` over a project tree: files with a recognized
extension are scanned; all four marker lists are uncapped
concatenations over files. -/
def find_todos_and_fixmes (tree : List FSEntry) : TaskResult :=
  let files := (walkEntries "" tree).filter
    (fun f => task_exts.any (fun e => strEnds f.name e))
  { todos := files.flatMap (fun f => todosInFile "TODO" f.path f.content)
    fixmes := files.flatMap (fun f => todosInFile "FIXME" f.path f.content)
    hacks := files.flatMap (fun f => todosInFile "HACK" f.path f.content)
    notes := files.flatMap (fun f => todosInFile "NOTE" f.path f.content) }

/-! ## Code Metrics Analyzer (`analyze_code_metrics`) -/

/-- Extensions counted by the metrics analyzer. -/
def metrics_exts : List String :=
  [".py", ".js", ".ts", ".jsx", ".tsx", ".html", ".css", ".md", ".txt", ".json"]

/-- Extensions that feed the complexity estimate. -/
def complexity_exts : List String := [".py", ".js", ".ts"]

/-- `os.path.splitext(file)[1].lower()` for names that do not start with
a dot (the analyzer skips dot-files before computing the extension):
the part from the last `.` on, lower-cased; `""` when there is no dot. -/
def extOf (name : String) : String :=
  let cs := name.toList
  if '.' ∈ cs then
    lowerStr ⟨'.' :: ((cs.reverse.takeWhile (fun c => c ≠ '.')).reverse)⟩
  else ""

/-- `len(content.split('\n'))`. -/
def linesOf (content : String) : Nat := (splitLinesPy content).length

/-- Literal (case-sensitive) match of a keyword; returns the remainder. -/
def dropLit : List Char → List Char → Option (List Char)
  | [], cs => some cs
  | _ :: _, [] => none
  | k :: ks, c :: cs => if c = k then dropLit ks cs else none

/-- One alternative `KW\s+\w+` of the declaration-count pattern at the
current position: keyword, at least one space, at least one word
character, all greedy; returns the remainder after the match. -/
def matchDecl (kw : List Char) (cs : List Char) : Option (List Char) :=
  match dropLit kw cs with
  | none => none
  | some r1 =>
    let sp := r1.takeWhile isPySpace
    if sp.isEmpty then none
    else
      let r2 := r1.drop sp.length
      let w := r2.takeWhile isWordChar
      if w.isEmpty then none else some (r2.drop w.length)

/-- A successful `dropLit` removes exactly the keyword's length. -/
theorem dropLit_length {kw cs r : List Char} (h : dropLit kw cs = some r) :
    r.length + kw.length = cs.length := by
  induction kw generalizing cs with
  | nil =>
    simp only [dropLit, Option.some.injEq] at h
    subst h; simp
  | cons k ks ih =>
    cases cs with
    | nil => exact absurd h (by simp [dropLit])
    | cons c cs' =>
      simp only [dropLit] at h
      by_cases hc : c = k
      · rw [if_pos hc] at h
        have := ih h
        simp only [List.length_cons]
        omega
      · rw [if_neg hc] at h; exact absurd h (by simp)

/-- The remainder returned by `matchDecl` is strictly shorter than the
input when the keyword is nonempty. -/
theorem matchDecl_shorter {kw cs rem : List Char} (hkw : kw ≠ [])
    (h : matchDecl kw cs = some rem) : rem.length < cs.length := by
  unfold matchDecl at h
  cases hdp : dropLit kw cs with
  | none => rw [hdp] at h; exact absurd h (by simp)
  | some r1 =>
    rw [hdp] at h
    simp only at h
    have hr1 : r1.length + kw.length = cs.length := dropLit_length hdp
    have hkwpos : 0 < kw.length := List.length_pos.mpr hkw
    split at h
    · exact absurd h (by simp)
    · split at h
      · exact absurd h (by simp)
      · have hx := Option.some.inj h
        subst hx
        simp only [List.length_drop]
        omega

/-- Count of `re.findall(r'def\s+\w+|function\s+\w+|class\s+\w+', ...)`:
non-overlapping, leftmost-first, alternatives tried in order. -/
def countDecls : List Char → Nat
  | [] => 0
  | c :: rest =>
    match hd : matchDecl "def".toList (c :: rest) with
    | some rem => 1 + countDecls rem
    | none =>
      match hf : matchDecl "function".toList (c :: rest) with
      | some rem => 1 + countDecls rem
      | none =>
        match hc : matchDecl "class".toList (c :: rest) with
        | some rem => 1 + countDecls rem
        | none => countDecls rest
termination_by cs => cs.length
decreasing_by
  · exact matchDecl_shorter (by simp) hd
  · exact matchDecl_shorter (by simp) hf
  · exact matchDecl_shorter (by simp) hc
  · simp

/-- One entry of the `file_sizes` list of `analyze_code_metrics`. -/
structure SizeRec where
  file : String
  lines : Nat
  size : Nat
deriving DecidableEq, Repr

/-- Result shape of `analyze_code_metrics`. -/
structure Metrics where
  total_files : Nat
  total_lines : Nat
  file_types : List (String × Nat)
  largest_files : List SizeRec
  complexity_estimate : Nat
deriving DecidableEq, Repr

/-- In-progress accumulator of the metrics walk. -/
structure MetricsAcc where
  total_files : Nat
  total_lines : Nat
  file_types : List (String × Nat)
  file_sizes : List SizeRec
  complexity : Nat
deriving DecidableEq, Repr

/-- One loop iteration of `analyze_code_metrics`: skip files whose own
name starts with a dot, filter on the extension allow-list, accumulate
counts and sizes, and count declarations for source extensions. -/
def metricsStep (acc : MetricsAcc) (f : FileRec) : MetricsAcc :=
  if strStarts f.name "." then acc
  else
    let ext := extOf f.name
    if ext ∈ metrics_exts then
      { total_files := acc.total_files + 1
        total_lines := acc.total_lines + linesOf f.content
        file_types := bumpAssoc ext acc.file_types
        file_sizes := acc.file_sizes ++ [⟨f.path, linesOf f.content, f.content.length⟩]
        complexity := acc.complexity +
          (if ext ∈ complexity_exts then countDecls f.content.toList else 0) }
    else acc

/-- `analyze_code_metrics` over a project tree.  The walk reaches every
file of every directory (`os.walk` with no pruning); the `largest_files`
list is the stable descending-by-lines sort, capped at 10. -/
def analyze_code_metrics (tree : List FSEntry) : Metrics :=
  let acc := (walkEntries "" tree).foldl metricsStep ⟨0, 0, [], [], 0⟩
  { total_files := acc.total_files
    total_lines := acc.total_lines
    file_types := acc.file_types
    largest_files := (acc.file_sizes.mergeSort (fun a b => b.lines ≤ a.lines)).take 10
    complexity_estimate := acc.complexity }

/-! ## Dependency Analyzer (`analyze_dependencies`) -/

/-- The inputs the analyzer reads from the project root: the lines of
`requirements.txt` when present, the parse outcome of `package.json`
when present (`Except` models `json.load` raising `JSONDecodeError`;
on success it yields the `dependencies` and `devDependencies` objects),
and the raw text of `Pipfile` when present. -/
structure DepProject where
  requirements : Option (List String)
  packageJson : Option (Except String (List (String × String) × List (String × String)))
  pipfile : Option String
deriving Repr

/-- Result shape of `analyze_dependencies`.  `node_deps` is a Python
dict: either the merged dependency mapping or the sentinel
`{"error": "Invalid JSON"}`. -/
structure DepResult where
  python_deps : List String
  node_deps : List (String × String)
  outdated : List String
  security_issues : List String
  total_deps : Nat
deriving DecidableEq, Repr

/-- Python `{**a, **b}` on insertion-ordered dicts with unique keys:
keys of `a` first (values overridden by `b`), then the new keys of `b`. -/
def dictMerge (a b : List (String × String)) : List (String × String) :=
  a.map (fun kv => (kv.1, ((b.lookup kv.1).getD kv.2))) ++
    b.filter (fun kv => (a.lookup kv.1).isNone)

/-- The requirements filter: keep lines that are nonempty after
stripping and do not start with `#` (the test is on the raw line),
then strip them. -/
def requirementLines (lines : List String) : List String :=
  (lines.filter (fun l => pyStrip l ≠ "" ∧ ¬ strStarts l "#")).map pyStrip

/-- The `re.findall(r'^(\w+)\s*=', content, re.MULTILINE)` extraction of
the Pipfile branch: per line, a leading nonempty `\w+` run, optional
whitespace, then `=`. -/
def pipfileKeys (content : String) : List String :=
  (splitLinesPy content).filterMap (fun l =>
    let cs := l.toList
    let w := cs.takeWhile isWordChar
    if w.isEmpty then none
    else
      match (cs.drop w.length).dropWhile isPySpace with
      | '=' :: _ => some ⟨w⟩
      | _ => none)

/-- `analyze_dependencies`: the three manifest branches in source order.
On a `package.json` whose JSON fails to parse, the `JSONDecodeError`
handler stores the sentinel dict and the total is left untouched. -/
def analyze_dependencies (p : DepProject) : DepResult :=
  let r0 : DepResult := ⟨[], [], [], [], 0⟩
  let r1 := match p.requirements with
    | none => r0
    | some lines =>
      let deps := requirementLines lines
      { r0 with python_deps := deps, total_deps := r0.total_deps + deps.length }
  let r2 := match p.packageJson with
    | none => r1
    | some (.ok (deps, dev_deps)) =>
      let node := dictMerge deps dev_deps
      { r1 with node_deps := node, total_deps := r1.total_deps + node.length }
    | some (.error _) => { r1 with node_deps := [("error", "Invalid JSON")] }
  match p.pipfile with
  | none => r2
  | some content =>
    let packages := pipfileKeys content
    { r2 with python_deps := r2.python_deps ++ packages
              total_deps := r2.total_deps + packages.length }

/-! ## Revision History Analyzer (`analyze_git_history`) -/

/-- One commit as seen through the version-control log reader
(`repo.iter_commits()` yields commits newest first).  The committed
datetime is modelled by its two string renderings used by the code. -/
structure GitCommit where
  hexsha : String
  message : String
  author : String
  ym : String
  iso : String
  files : List String
deriving DecidableEq, Repr

/-- One entry of the `recent_commits` list. -/
structure RecentCommit where
  hash : String
  message : String
  author : String
  date : String
deriving DecidableEq, Repr

/-- Result statistics of `analyze_git_history` on a repository. -/
structure CommitStats where
  total_commits : Nat
  authors : List (String × Nat)
  commit_frequency : List (String × Nat)
  recent_commits : List RecentCommit
  file_changes : List (String × Nat)
deriving DecidableEq, Repr

/-- Result of `analyze_git_history`: either the statistics or the
`{"error": ...}` dict produced by the `except` handler. -/
inductive GitResult
  | err (msg : String)
  | ok (stats : CommitStats)
deriving DecidableEq, Repr

/-- One iteration of the `for commit in commits[-50:]` loop. -/
def gitStep (acc : CommitStats) (c : GitCommit) : CommitStats :=
  { acc with
    authors := bumpAssoc c.author acc.authors
    commit_frequency := bumpAssoc c.ym acc.commit_frequency
    recent_commits :=
      if acc.recent_commits.length < 10 then
        acc.recent_commits ++ [⟨strTake c.hexsha 8, pyStrip c.message, c.author, c.iso⟩]
      else acc.recent_commits
    file_changes := c.files.foldl (fun fc path => bumpAssoc path fc) acc.file_changes }

/-- `analyze_git_history`: the whole body runs under `try`, and any
failure of the log reader becomes the error-dict result.  On success,
`commits` is the full newest-first log, `total_commits` its length, and
the detailed aggregation runs over `commits[-50:]` — the last 50
elements of the list. -/
def analyze_git_history (repoLog : Except String (List GitCommit)) : GitResult :=
  match repoLog with
  | .error e => .err ("Git analysis failed: " ++ e)
  | .ok commits =>
    let window := commits.drop (commits.length - 50)
    .ok (window.foldl gitStep ⟨commits.length, [], [], [], []⟩)

/-! ## Response Synthesizer mode selection (`call_ai_service`) -/

/-- The three ways `call_ai_service` can proceed. -/
inductive AIMode
  | openaiCall | anthropicCall | basicFallback
deriving DecidableEq, Repr

/-- The dispatch of `call_ai_service(question, data, service)`: the
fallback is taken when the service is "none" **or** the OpenAI key is
falsy (this is the test the source performs for every provider);
otherwise the provider named by `service` is called, unknown names
falling back. -/
def call_ai_service_mode (service : String)
    (openai_api_key anthropic_api_key : Option String) : AIMode :=
  if service = "none" ∨ pyTruthy openai_api_key = false then .basicFallback
  else if service = "openai" then .openaiCall
  else if service = "anthropic" then .anthropicCall
  else .basicFallback

/-- The `is_configured` field of the `/api/ai/status` route: the
selected service is not "none" and the credential of that very
service is set. -/
def ai_is_configured (service : String)
    (openai_api_key anthropic_api_key : Option String) : Bool :=
  service != "none" &&
    ((service == "openai" && pyTruthy openai_api_key) ||
     (service == "anthropic" && pyTruthy anthropic_api_key))

/-! ## Concrete inputs used by the claim theorems -/

/-- A newest-first log of 51 commits: index 0 is the newest commit,
with author `a0`; index 50 the oldest, with author `a50`. -/
def gitLog51 : List GitCommit :=
  (List.range 51).map (fun i =>
    ⟨toString i, "m" ++ toString i, "a" ++ toString i, "2024-01", "d" ++ toString i, []⟩)

/-- 25 collected security matches (3 high, 22 medium). -/
def secIssues25 : List SecIssue :=
  (List.range 25).map (fun i =>
    ⟨"app.py", i + 1, "eval_usage", "eval(", if i < 3 then "high" else "medium"⟩)

/-- A project with one scanned file of 25 TODO-marked lines. -/
def todo25file : List FSEntry :=
  [FSEntry.file "tasks.py"
    ⟨List.intercalate ['\n'] (List.replicate 25 "# TODO: fix this".toList)⟩]

/-- The statistics carried by an `ok` result (the zero statistics for an
error result, which carries none). -/
def gitOkStats : GitResult → CommitStats
  | .err _ => ⟨0, [], [], [], []⟩
  | .ok s => s

/-- A project whose only file lives inside the dot-directory `.git`. -/
def dotGitTree : List FSEntry :=
  [FSEntry.dir ".git" [FSEntry.file "config.py" "x = 1\ny = 2"]]

/-! ## Helper lemmas -/

theorem counterKeys_foldl_mem (l : List String) :
    ∀ (acc : List String) (a : String),
      a ∈ l.foldl (fun ks s => if s ∈ ks then ks else ks ++ [s]) acc ↔
        a ∈ acc ∨ a ∈ l := by
  induction l with
  | nil => intro acc a; simp
  | cons b t ih =>
    intro acc a
    rw [List.foldl_cons]
    by_cases hb : b ∈ acc
    · rw [if_pos hb, ih]
      constructor
      · rintro (h | h)
        · exact .inl h
        · exact .inr (List.mem_cons_of_mem b h)
      · rintro (h | h)
        · exact .inl h
        · rcases List.mem_cons.mp h with rfl | h2
          · exact .inl hb
          · exact .inr h2
    · rw [if_neg hb, ih]
      simp only [List.mem_append, List.mem_singleton, List.mem_cons]
      tauto

theorem counterKeys_foldl_nodup (l : List String) :
    ∀ acc : List String, acc.Nodup →
      (l.foldl (fun ks s => if s ∈ ks then ks else ks ++ [s]) acc).Nodup := by
  induction l with
  | nil => intro acc h; exact h
  | cons b t ih =>
    intro acc hacc
    rw [List.foldl_cons]
    by_cases hb : b ∈ acc
    · rw [if_pos hb]; exact ih acc hacc
    · rw [if_neg hb]
      refine ih _ ?_
      rw [← List.concat_eq_append]
      exact List.Nodup.concat hb hacc

theorem counterKeys_mem (l : List String) (a : String) :
    a ∈ counterKeys l ↔ a ∈ l := by
  unfold counterKeys
  rw [counterKeys_foldl_mem]
  simp

theorem counterKeys_nodup (l : List String) : (counterKeys l).Nodup :=
  counterKeys_foldl_nodup l [] List.nodup_nil

theorem map_count_sum_cons (ks : List String) (a : String) (t : List String) :
    (ks.map (fun x => (a :: t).count x)).sum =
      (ks.map (fun x => t.count x)).sum + ks.count a := by
  induction ks with
  | nil => simp
  | cons k kt ih =>
    simp only [List.map_cons, List.sum_cons, ih]
    simp only [List.count_cons]
    by_cases hk : a = k
    · subst hk
      simp only [beq_self_eq_true, if_true]
      omega
    · have h1 : (a == k) = false := beq_eq_false_iff_ne.mpr hk
      have h2 : (k == a) = false := beq_eq_false_iff_ne.mpr (Ne.symm hk)
      rw [h1, h2]
      simp only [Bool.false_eq_true, if_false]
      omega

theorem sum_counts_of_nodup_cover (l : List String) :
    ∀ ks : List String, ks.Nodup → (∀ a ∈ l, a ∈ ks) →
      (ks.map (fun x => l.count x)).sum = l.length := by
  induction l with
  | nil => intro ks _ _; simp
  | cons a t ih =>
    intro ks hnd hcov
    rw [map_count_sum_cons]
    rw [ih ks hnd (fun x hx => hcov x (List.mem_cons_of_mem a hx))]
    rw [List.count_eq_one_of_mem hnd (hcov a (List.mem_cons_self a t))]
    simp

theorem pyCounter_sum (l : List String) :
    ((pyCounter l).map (fun kv => kv.2)).sum = l.length := by
  unfold pyCounter
  rw [List.map_map]
  exact sum_counts_of_nodup_cover l (counterKeys l) (counterKeys_nodup l)
    (fun a ha => (counterKeys_mem l a).mpr ha)

theorem archBucket_empty (b : ArchBucket) : archBucket ⟨[], [], [], [], [], []⟩ b = [] := by
  cases b <;> rfl

theorem archAdd_bucket (s : ArchSummary) (p n : String) (b : ArchBucket) :
    archBucket (archAdd s p n) b =
      archBucket s b ++ (if classifyFile n = some b then [p] else []) := by
  unfold archAdd classifyFile
  split_ifs <;> cases b <;> simp_all [archBucket]

theorem arch_foldl_bucket (files : List (String × String)) :
    ∀ (s : ArchSummary) (b : ArchBucket),
      archBucket (files.foldl (fun s pn => archAdd s pn.1 pn.2) s) b =
        archBucket s b ++
          (files.filter (fun pn => classifyFile pn.2 = some b)).map (fun pn => pn.1) := by
  induction files with
  | nil => intro s b; simp
  | cons f t ih =>
    intro s b
    rw [List.foldl_cons, ih, archAdd_bucket]
    by_cases h : classifyFile f.2 = some b <;> simp [List.filter_cons, h]

theorem filterMap_length_isSome {α β : Type} (f : α → Option β) (l : List α) :
    (l.filterMap f).length = (l.filter (fun x => (f x).isSome)).length := by
  induction l with
  | nil => rfl
  | cons a t ih => cases hf : f a <;> simp [List.filterMap_cons, List.filter_cons, hf, ih]

theorem enumFrom_filter_snd_length {α : Type} (p : α → Bool) (l : List α) :
    ∀ n : Nat, ((List.enumFrom n l).filter (fun il => p il.2)).length =
      (l.filter p).length := by
  induction l with
  | nil => intro n; rfl
  | cons a t ih =>
    intro n
    cases hp : p a <;>
      simp [List.enumFrom_cons, List.filter_cons, hp, ih]

theorem enumFrom_mem_getElem {α : Type} (l : List α) :
    ∀ (n : Nat) (ix : Nat × α), ix ∈ List.enumFrom n l →
      n ≤ ix.1 ∧ l[ix.1 - n]? = some ix.2 := by
  induction l with
  | nil => intro n ix h; simp [List.enumFrom] at h
  | cons a t ih =>
    intro n ix h
    rw [List.enumFrom_cons] at h
    rcases List.mem_cons.mp h with h1 | h2
    · subst h1; simp
    · obtain ⟨hle, hget⟩ := ih (n + 1) ix h2
      refine ⟨by omega, ?_⟩
      have hx : ix.1 - n = (ix.1 - (n + 1)) + 1 := by omega
      rw [hx]
      simpa using hget

theorem metrics_foldl_skips_dots (fs : List FileRec) :
    ∀ acc : MetricsAcc,
      fs.foldl metricsStep acc =
        (fs.filter (fun f => ¬ strStarts f.name ".")).foldl metricsStep acc := by
  induction fs with
  | nil => intro acc; rfl
  | cons f t ih =>
    intro acc
    by_cases h : strStarts f.name "."
    · have hstep : metricsStep acc f = acc := by simp [metricsStep, h]
      simp [List.foldl_cons, List.filter_cons, h, hstep, ih]
    · simp [List.foldl_cons, List.filter_cons, h, ih]

theorem matchMarkerCI_self (m : List Char) :
    ∀ rest : List Char, matchMarkerCI m (m ++ rest) = some rest := by
  induction m with
  | nil => intro rest; rfl
  | cons c ms ih => intro rest; simp [matchMarkerCI, ih]

theorem todosInFile_length (m fname content : String) :
    (todosInFile m fname content).length =
      ((splitLinesPy content).filter
        (fun l => (scanMarker m.toList l.toList).isSome)).length := by
  unfold todosInFile
  rw [filterMap_length_isSome]
  have heq : ∀ il : Nat × String,
      ((match scanMarker m.toList il.2.toList with
        | some g => some (⟨fname, il.1 + 1, pyStrip ⟨g⟩, pyStrip il.2⟩ : TaskEntry)
        | none => none) : Option TaskEntry).isSome =
        (scanMarker m.toList il.2.toList).isSome := by
    intro il
    cases h : scanMarker m.toList il.2.toList <;> simp [h]
  simp only [heq]
  rw [show (splitLinesPy content).enum = List.enumFrom 0 (splitLinesPy content) from rfl]
  exact enumFrom_filter_snd_length
    (fun l => (scanMarker m.toList l.toList).isSome) (splitLinesPy content) 0

/-! ## Claim theorems -/

/-- Claim C9: for every project root that is not a version-controlled
working copy with accessible commit history — modelled as the log
reader failing with any message — the Revision History Analyzer
returns a result carrying an explicit error field.  The embedding is a
total function, so no exception can propagate past the analyzer
boundary. -/
theorem git_history_error_result (e : String) :
    analyze_git_history (.error e) = .err ("Git analysis failed: " ++ e) := rfl

/-- Claim C2 (code bug): with the Anthropic provider selected and an
Anthropic credential configured (and no OpenAI credential), the app's
own `/api/ai/status` logic reports the AI service as configured, yet
`call_ai_service` takes the template fallback, because its guard tests
the OpenAI key for every provider.  The AI path is taken only when the
OpenAI key is set, whatever the provider. -/
theorem anthropic_configured_takes_fallback :
    ai_is_configured "anthropic" none (some "sk-ant-api-key") = true ∧
    call_ai_service_mode "anthropic" none (some "sk-ant-api-key") = .basicFallback ∧
    call_ai_service_mode "anthropic" (some "sk-openai-key") none = .anthropicCall ∧
    call_ai_service_mode "openai" (some "sk-openai-key") none = .openaiCall ∧
    call_ai_service_mode "none" (some "sk-openai-key") (some "sk-ant-api-key") =
      .basicFallback := by
  decide

/-- Claim C7 (counterexample): a project whose only file lies inside
the dot-prefixed directory `.git` still gets that file counted —
`total_files` is 1, not 0 — so files inside dot-directories do
contribute to the metrics, contrary to the claim. -/
theorem metrics_counts_file_inside_dot_dir :
    (analyze_code_metrics dotGitTree).total_files = 1 ∧
    (analyze_code_metrics dotGitTree).total_lines = 2 ∧
    (analyze_code_metrics dotGitTree).file_types = [(".py", 1)] := by
  decide

/-- Claim C7 (amended): the metrics walk skips exactly the files whose
own name begins with a dot; directories are never pruned, so a file
with an allow-listed extension inside a dot-prefixed directory (such
as `.git`) does contribute to every metric, while a dot-named file
(such as `.env`) contributes nothing. -/
theorem metrics_skips_dot_files_only :
    (∀ (fs : List FileRec) (acc : MetricsAcc),
      fs.foldl metricsStep acc =
        (fs.filter (fun f => ¬ strStarts f.name ".")).foldl metricsStep acc) ∧
    (analyze_code_metrics dotGitTree).total_files = 1 ∧
    (analyze_code_metrics [FSEntry.file ".env" "SECRET=1"]).total_files = 0 := by
  refine ⟨fun fs acc => metrics_foldl_skips_dots fs acc, by decide, by decide⟩

/-- Claim C8: when `package.json` is present but its JSON does not
parse, the Dependency Analyzer (a total function: it returns normally)
stores the parse-error sentinel dict in `node_deps` instead of merged
dependency mappings, and the other fields are as if the manifest were
absent. -/
theorem malformed_package_json_sentinel (p : DepProject) (e : String) :
    (analyze_dependencies { p with packageJson := some (.error e) }).node_deps =
      [("error", "Invalid JSON")] ∧
    (analyze_dependencies { p with packageJson := some (.error e) }).total_deps =
      (analyze_dependencies { p with packageJson := none }).total_deps ∧
    (analyze_dependencies { p with packageJson := some (.error e) }).python_deps =
      (analyze_dependencies { p with packageJson := none }).python_deps := by
  cases hr : p.requirements <;> cases hp : p.pipfile <;>
    simp [analyze_dependencies, hr, hp]

/-- Claim C10 (counterexample): the line `# TODO:` has a line-comment
token followed by the marker with nothing after the `:` separator, yet
the Task-Comment Finder records an entry for it — the greedy `[:\s]*`
backtracks and the capture group takes the `:` itself. -/
theorem todo_bare_colon_recorded :
    (find_todos_and_fixmes [FSEntry.file "a.py" "# TODO:"]).todos =
      [⟨"a.py", 1, ":", "# TODO:"⟩] := by
  decide

/-- Claim C1 (code bug): `repo.iter_commits()` yields commits newest
first, so on a 51-commit log `commits[-50:]` is the 50 **oldest**
commits.  The newest commit (author `a0`) contributes to no aggregate,
and `recent_commits` holds commits 1..10 (the second-newest onwards)
instead of the 10 most recent — contradicting the source's own
`# Last 50 commits` comment and the `recent_commits` field name. -/
theorem git_history_window_drops_newest :
    (∃ s, analyze_git_history (.ok gitLog51) = .ok s) ∧
    (gitOkStats (analyze_git_history (.ok gitLog51))).total_commits = 51 ∧
    (gitOkStats (analyze_git_history (.ok gitLog51))).authors.lookup "a0" = none ∧
    (gitOkStats (analyze_git_history (.ok gitLog51))).authors.lookup "a50" = some 1 ∧
    (gitOkStats (analyze_git_history (.ok gitLog51))).recent_commits.map
        (fun r => r.author) =
      ["a1", "a2", "a3", "a4", "a5", "a6", "a7", "a8", "a9", "a10"] :=
  ⟨⟨_, rfl⟩, by decide⟩

/-- Claim C3: the Security Scanner's severity histogram is computed
over all matches and its counts sum to `total_issues`, while the
displayed list is the first-20 cap of the match list — also at a
concrete input with 25 matches, where the cap bites but the histogram
and the total still cover all 25. -/
theorem security_breakdown_sums_to_total :
    (∀ issues : List SecIssue,
      ((mkSecurityReport issues).severity_breakdown.map (fun kv => kv.2)).sum =
        (mkSecurityReport issues).total_issues ∧
      (mkSecurityReport issues).issues = issues.take 20 ∧
      (mkSecurityReport issues).total_issues = issues.length) ∧
    (mkSecurityReport secIssues25).total_issues = 25 ∧
    (mkSecurityReport secIssues25).issues.length = 20 ∧
    (mkSecurityReport secIssues25).severity_breakdown = [("high", 3), ("medium", 22)] := by
  refine ⟨fun issues => ⟨?_, rfl, rfl⟩, by decide, by decide, by decide⟩
  show ((pyCounter (issues.map (fun i => i.severity))).map (fun kv => kv.2)).sum =
    issues.length
  rw [pyCounter_sum]
  exact List.length_map issues _

/-- Claim C4: the Architecture Summarizer's `if/elif` chain equals
first-match classification over the fixed precedence order; each
walked file's path appears exactly in the bucket of its class (so in at
most one bucket, and in none when no rule matches); `test_api.py`
lands in the API bucket, and a file matching no rule is unreported. -/
theorem architecture_single_bucket_first_match :
    (∀ f, classifyFile f = classifyByRules f) ∧
    (∀ (files : List (String × String)) (b : ArchBucket),
      archBucket (generate_architecture_summary files) b =
        (files.filter (fun pn => classifyFile pn.2 = some b)).map (fun pn => pn.1)) ∧
    classifyFile "test_api.py" = some ArchBucket.apiEndpoint ∧
    classifyFile "notes.xyz" = none := by
  refine ⟨?_, ?_, by decide, by decide⟩
  · intro f
    unfold classifyFile classifyByRules archRules
    by_cases h1 : f ∈ entry_point_names
    · simp [List.find?_cons, h1]
    · by_cases h2 : (strContains "api" (lowerStr f) || strContains "route" (lowerStr f)) = true
      · simp [List.find?_cons, h1, h2]
      · by_cases h3 : (database_exts.any (fun e => strEnds f e)) = true
        · simp [List.find?_cons, h1, h2, h3]
        · by_cases h4 : f ∈ config_file_names
          · simp [List.find?_cons, h1, h2, h3, h4]
          · by_cases h5 : (strContains "test" (lowerStr f) || strStarts f "test_") = true
            · simp [List.find?_cons, h1, h2, h3, h4, h5]
            · by_cases h6 : (static_exts.any (fun e => strEnds f e)) = true
              · simp [List.find?_cons, h1, h2, h3, h4, h5, h6]
              · simp [List.find?_cons, h1, h2, h3, h4, h5, h6]
  · intro files b
    unfold generate_architecture_summary
    rw [arch_foldl_bucket, archBucket_empty]
    simp

/-- Claim C5: the Intent Router selects the union (in source order) of
the tool names of all keyword groups with a keyword contained in the
lower-cased question, independently; a question naming dependencies
and security selects both analyzers; with no match it returns exactly
the default pair (Code Metrics, Dependency Analyzer). -/
theorem router_union_and_default :
    (∀ question, agent_tools_to_run question = routeSpec question) ∧
    (∀ q name, name ∈ matchingTools q ↔
      ∃ g ∈ keyword_groups, g.2 = name ∧ ∃ w ∈ g.1, strContains w q = true) ∧
    agent_tools_to_run "What are the dependencies and security issues?" =
      ["analyze_dependencies", "find_security_issues"] ∧
    agent_tools_to_run "hello there" = default_tools := by
  refine ⟨?_, ?_, by decide, by decide⟩
  · intro question
    have key : ∀ (gs : List (List String × String)) (acc : List String) (q : String),
        gs.foldl (fun a g =>
            if g.1.any (fun w => strContains w q) then a ++ [g.2] else a) acc =
          acc ++ gs.filterMap
            (fun g => if g.1.any (fun w => strContains w q) then some g.2 else none) := by
      intro gs
      induction gs with
      | nil => intro acc q; simp
      | cons g t ih =>
        intro acc q
        rw [List.foldl_cons, List.filterMap_cons]
        by_cases h : (g.1.any (fun w => strContains w q)) = true
        · simp only [h, if_true]
          show List.foldl _ (acc ++ [g.2]) t = acc ++ (g.2 :: List.filterMap _ t)
          rw [ih]
          simp
        · simp only [h, if_false]
          show List.foldl _ acc t = acc ++ List.filterMap _ t
          exact ih acc q
    have h0 : agent_tools_to_run question =
        (let sel := keyword_groups.foldl
            (fun a g =>
              if g.1.any (fun w => strContains w (lowerStr (pyStrip question))) then
                a ++ [g.2] else a) [];
          if sel = [] then default_tools else sel) := rfl
    rw [h0, key]
    rfl
  · intro q name
    constructor
    · intro h
      unfold matchingTools at h
      rw [List.mem_filterMap] at h
      obtain ⟨g, hg, hfg⟩ := h
      rw [Option.ite_none_right_eq_some] at hfg
      exact ⟨g, hg, Option.some.inj hfg.2, List.any_eq_true.mp hfg.1⟩
    · rintro ⟨g, hg, hname, w, hw, hcw⟩
      unfold matchingTools
      rw [List.mem_filterMap]
      refine ⟨g, hg, ?_⟩
      rw [Option.ite_none_right_eq_some]
      exact ⟨List.any_eq_true.mpr ⟨w, hw, hcw⟩, by rw [hname]⟩

/-- Claim C6: the Task-Comment Finder records one entry per marker
match with no cap — the todos list's length is the total number of
matching lines over all scanned files — every entry carries the file,
a 1-based line number pointing at the matched line, the stripped
captured text and the stripped raw line; a file of 25 TODO-marked
lines yields exactly 25 entries. -/
theorem todos_uncapped_all_matches :
    (∀ tree : List FSEntry,
      (find_todos_and_fixmes tree).todos.length =
        (((walkEntries "" tree).filter
            (fun f => task_exts.any (fun e => strEnds f.name e))).map
          (fun f => ((splitLinesPy f.content).filter
            (fun l => (scanMarker "TODO".toList l.toList).isSome)).length)).sum) ∧
    (∀ (marker fname content : String), ∀ e ∈ todosInFile marker fname content,
      e.file = fname ∧ 1 ≤ e.line ∧
      ∃ l, (splitLinesPy content)[e.line - 1]? = some l ∧
        ∃ g, scanMarker marker.toList l.toList = some g ∧
          e.content = pyStrip ⟨g⟩ ∧ e.full_line = pyStrip l) ∧
    (find_todos_and_fixmes todo25file).todos.length = 25 := by
  refine ⟨?_, ?_, by decide⟩
  · intro tree
    unfold find_todos_and_fixmes
    rw [List.length_flatMap]
    refine congrArg List.sum (List.map_congr_left ?_)
    intro f _
    exact todosInFile_length "TODO" f.path f.content
  · intro marker fname content e he
    unfold todosInFile at he
    rw [List.mem_filterMap] at he
    obtain ⟨il, hil, hfe⟩ := he
    cases hscan : scanMarker marker.toList il.2.toList with
    | none => rw [hscan] at hfe; cases hfe
    | some g =>
      rw [hscan] at hfe
      have he2 := Option.some.inj hfe
      subst he2
      obtain ⟨-, hget⟩ := enumFrom_mem_getElem (splitLinesPy content) 0 il hil
      exact ⟨rfl, by simp, il.2, by simpa using hget, g, hscan, rfl, rfl⟩

/-- Claim C6 witness: the theorem's per-entry guarantees, discharged at
the concrete single-line file `# TODO: fix`. -/
theorem todos_uncapped_all_matches_witness :
    (⟨"a.py", 1, "fix", "# TODO: fix"⟩ : TaskEntry).file = "a.py" ∧
    1 ≤ (⟨"a.py", 1, "fix", "# TODO: fix"⟩ : TaskEntry).line ∧
    ∃ l, (splitLinesPy "# TODO: fix")[(⟨"a.py", 1, "fix", "# TODO: fix"⟩ : TaskEntry).line - 1]? =
        some l ∧
      ∃ g, scanMarker "TODO".toList l.toList = some g ∧
        (⟨"a.py", 1, "fix", "# TODO: fix"⟩ : TaskEntry).content = pyStrip ⟨g⟩ ∧
        (⟨"a.py", 1, "fix", "# TODO: fix"⟩ : TaskEntry).full_line = pyStrip l :=
  todos_uncapped_all_matches.2.1 "TODO" "a.py" "# TODO: fix"
    ⟨"a.py", 1, "fix", "# TODO: fix"⟩ (by decide)

/-- Claim C10 (amended): after a line-comment token, optional spaces
and the marker, an entry is produced exactly when at least one
character of any kind follows the marker — including a lone `:` or
trailing whitespace, in which case the captured text is the final
separator character.  Only a line ending immediately after the marker
produces no entry. -/
theorem todo_entry_iff_char_after_marker :
    (∀ rest : List Char,
      (matchAfterToken ['T', 'O', 'D', 'O']
          (' ' :: 'T' :: 'O' :: 'D' :: 'O' :: rest)).isSome = !rest.isEmpty) ∧
    scanMarker "TODO".toList "# TODO".toList = none ∧
    scanMarker "TODO".toList "# TODO:".toList = some [':'] ∧
    scanMarker "TODO".toList "# TODO  ".toList = some [' '] ∧
    scanMarker "TODO".toList "# TODO: fix".toList = some "fix".toList := by
  refine ⟨?_, by decide, by decide, by decide, by decide⟩
  intro rest
  have h1 : List.dropWhile isPySpace (' ' :: 'T' :: 'O' :: 'D' :: 'O' :: rest) =
      ['T', 'O', 'D', 'O'] ++ rest := by
    rw [List.dropWhile_cons, if_pos (by decide), List.dropWhile_cons, if_neg (by decide)]
    rfl
  simp only [matchAfterToken, h1, matchMarkerCI_self]
  cases rest with
  | nil => rfl
  | cons r rs =>
    have hle : ((r :: rs).takeWhile isSepChar).length ≤ (r :: rs).length :=
      (List.takeWhile_sublist _).length_le
    by_cases hlt : ((r :: rs).takeWhile isSepChar).length < (r :: rs).length
    · rw [if_pos hlt]
      rfl
    · have hpos : 0 < ((r :: rs).takeWhile isSepChar).length := by
        have heq : ((r :: rs).takeWhile isSepChar).length = (r :: rs).length :=
          le_antisymm hle (le_of_not_lt hlt)
        rw [heq]; simp
      rw [if_neg hlt, if_pos hpos]
      rfl

end GithubQnA
